import Mathlib

/-!
Verification of the screenplay dialogue pipeline.

A shallow embedding of `scripts/pipeline.py` (and of the persistence
contract used by its driver): the speaker-header classifier built on
`SPEAKER_RE`, the mode resolver `mode_from_tags`, the block segmenter
`extract_dialogue_blocks`, the speaker filter `is_debra`, and the lexical
analyzer `debra_stats`.

Python strings are modelled as `String`/`List Char`; the embedding covers
the ASCII whitespace set used by Python's `\s`, `str.strip` and
`str.rstrip` on the characters that occur in screenplay text, plus the
few non-ASCII characters the source manipulates explicitly
(typographic right quote, `Õ`/`õ`, backtick).
-/

set_option autoImplicit false

/-- ASCII whitespace, the characters Python's `str.strip`/`\s` treat as
whitespace within the ASCII range: space, tab, newline, carriage return,
vertical tab, form feed. -/
def isPySpace (c : Char) : Bool :=
  c == ' ' || c == '\t' || c == '\n' || c == '\r' || c == '\x0b' || c == '\x0c'

/-- Uppercase ASCII letter, the regex class `[A-Z]`. -/
def isUpperAZ (c : Char) : Bool := 'A' ≤ c && c ≤ 'Z'

/-- ASCII digit, the regex class `[0-9]`. -/
def isDigit09 (c : Char) : Bool := '0' ≤ c && c ≤ '9'

/-- The speaker-name character class of `SPEAKER_RE`: `[A-Z0-9' .-]`. -/
def isNameChar (c : Char) : Bool :=
  isUpperAZ c || isDigit09 c || c == '\'' || c == ' ' || c == '.' || c == '-'

/-- Python `str.lstrip` on a character list. -/
def lstripChars (cs : List Char) : List Char := cs.dropWhile isPySpace

/-- Python `str.rstrip` on a character list. -/
def rstripChars (cs : List Char) : List Char :=
  (cs.reverse.dropWhile isPySpace).reverse

/-- Python `str.strip` on a character list. -/
def stripChars (cs : List Char) : List Char := rstripChars (lstripChars cs)

/-- Python `str.strip` on a `String`. -/
def pyStrip (s : String) : String := ⟨stripChars s.data⟩

/-- Python `str.rstrip` on a `String`. -/
def pyRstrip (s : String) : String := ⟨rstripChars s.data⟩

/-- Predicate `listStarts s p` holds when `p` is a prefix of `s`
(Python `s.startswith(p)`). -/
def listStarts : List Char → List Char → Bool
  | _, [] => true
  | [], _ :: _ => false
  | c :: cs, p :: ps => c == p && listStarts cs ps

/-- Predicate `listHasSub s sub` holds when `sub` occurs contiguously in `s`
(Python `sub in s`). -/
def listHasSub : List Char → List Char → Bool
  | [], sub => sub.isEmpty
  | c :: tl, sub => listStarts (c :: tl) sub || listHasSub tl sub

/-- Python `sub in s` on `String`s. -/
def strHasSub (s sub : String) : Bool := listHasSub s.data sub.data

/-- Python `str.upper`, restricted to ASCII letters plus the one non-ASCII
letter the pipeline manipulates (`õ` → `Õ`, as Python's `upper` maps it). -/
def upChar (c : Char) : Char :=
  if 'a' ≤ c && c ≤ 'z' then Char.ofNat (c.toNat - 32)
  else if c == 'õ' then 'Õ'
  else c

/-- Python `str.lower`, restricted to ASCII letters plus `Õ` → `õ`
(as Python's `lower` maps it). -/
def lowChar (c : Char) : Char :=
  if 'A' ≤ c && c ≤ 'Z' then Char.ofNat (c.toNat + 32)
  else if c == 'Õ' then 'õ'
  else c

/-- Python `str.replace(a, b)` for single characters. -/
def replChar (a b : Char) (cs : List Char) : List Char :=
  cs.map (fun c => if c == a then b else c)

/-- Python `str.upper` on a `String`. -/
def upperStr (s : String) : String := ⟨s.data.map upChar⟩

/-- Function `normalize_tag` from `pipeline.py`:
`tag.upper().replace("Õ", "'").replace("’", "'").replace("`", "'").strip()`.
The two further `replace("CONTÕD"/"CONT’D", "CONT'D")` calls in the source
are vacuous at this point — both `Õ` and the typographic quote have already
been replaced by `'` — so they are not modelled.
-/
def normalize_tag (tag : String) : String :=
  ⟨stripChars (replChar '\x60' '\'' (replChar '’' '\''
      (replChar 'Õ' '\'' (tag.data.map upChar))))⟩

/-- Function `mode_from_tags` from `pipeline.py`: keep the tags that are present and
non-empty (Python truthiness of `(tag1, tag2)` entries), normalize them,
and test `"V.O" in t or t == "VO"` then `"O.S" in t or t == "OS"`.
-/
def mode_from_tags (tag1 tag2 : Option String) : Option String :=
  let tags := (([tag1, tag2].filterMap id).filter
      (fun t => !t.data.isEmpty)).map normalize_tag
  if tags.any (fun t => strHasSub t "V.O" || t == "VO") then some "VO"
  else if tags.any (fun t => strHasSub t "O.S" || t == "OS") then some "OS"
  else none

/-- Whitespace skipping, the regex `\s*`. -/
def skipSpacesL (cs : List Char) : List Char := cs.dropWhile isPySpace

/-- Test that a list is all whitespace, the regex `\s*$`. -/
def spacesOnlyL (cs : List Char) : Bool := cs.all isPySpace

/-- One tag group of `SPEAKER_RE`, the regex fragment `\s*\((?P<tag>[^)]+)\)`:
optional whitespace, an opening parenthesis, one or more characters none of
which is a closing parenthesis, then a closing parenthesis.  Returns the tag
content and the remaining input.  Note `[^)]+` excludes only the closing
parenthesis, so the content may itself contain `(`. -/
def grabTag (cs : List Char) : Option (List Char × List Char) :=
  match skipSpacesL cs with
  | [] => none
  | c :: cs2 =>
    if c = '(' then
      let content := cs2.takeWhile (fun x => x != ')')
      if content.isEmpty then none
      else
        match cs2.dropWhile (fun x => x != ')') with
        | [] => none
        | d :: rest => if d = ')' then some (content, rest) else none
    else none

/-- The part of `SPEAKER_RE` after the speaker group:
`(?:\s*\((?P<tag1>[^)]+)\))?(?:\s*\((?P<tag2>[^)]+)\))?\s*$`.
Backtracking never changes the outcome here: a successfully parsed group
starts at a `(` which `\s*$` can never absorb, and a shorter `[^)]+` run
would leave a non-`)` character in front of the required `\)`, so the
greedy left-to-right parse below is exactly what Python's engine accepts. -/
def tailMatch (cs : List Char) : Option (Option String × Option String) :=
  match grabTag cs with
  | none => if spacesOnlyL cs then some (none, none) else none
  | some (t1, r1) =>
    match grabTag r1 with
    | none => if spacesOnlyL r1 then some (some ⟨t1⟩, none) else none
    | some (t2, r2) =>
      if spacesOnlyL r2 then some (some ⟨t1⟩, some ⟨t2⟩) else none

/-- Matching `SPEAKER_RE` against an already stripped line.
The speaker group `[A-Z][A-Z0-9' .-]{1,40}` is greedy; Python would
backtrack it on failure, but the name class is disjoint from `(`, and any
freed non-space name character can be consumed by neither `\s*\(` nor
`\s*$`, while freed spaces are re-absorbed by the following `\s*`; so
taking the maximal run capped at 41 characters is faithful, and it is also
the capture Python reports (first success in greedy order). -/
def speakerMatch : List Char → Option (List Char × Option String × Option String)
  | [] => none
  | c :: tl =>
    if isUpperAZ c then
      if min ((c :: tl).takeWhile isNameChar).length 41 < 2 then none
      else
        match tailMatch ((c :: tl).drop
            (min ((c :: tl).takeWhile isNameChar).length 41)) with
        | some (t1, t2) =>
          some ((c :: tl).take (min ((c :: tl).takeWhile isNameChar).length 41), t1, t2)
        | none => none
    else none

/-- The tuple `NON_DIALOGUE_HEADERS` from `pipeline.py`. -/
def NON_DIALOGUE_HEADERS : List String :=
  ["INT.", "EXT.", "CUT TO:", "FADE IN:", "FADE OUT:", "SMASH CUT:", "DISSOLVE TO:"]

/-- The set of known false-positive speaker names from
`looks_like_speaker_header`. -/
def FALSE_POSITIVE_NAMES : List String :=
  ["PANNING FURTHER DOWN UNTIL", "THE WINDSHIELD AND SEE", "BACK TO SCENE",
   "NEW ANGLE", "FREEZE FRAME ON HIS FACE"]

/-- Function `looks_like_speaker_header` from `pipeline.py`: strip the line;
blank lines and lines starting with a scene/transition marker yield `None`;
otherwise match `SPEAKER_RE`, trim the captured speaker, drop it if it is a
known all-caps action beat, and resolve the mode from the tag captures. -/
def looks_like_speaker_header (line : String) : Option (String × Option String) :=
  let cs := stripChars line.data
  if cs.isEmpty then none
  else if NON_DIALOGUE_HEADERS.any (fun p => listStarts cs p.data) then none
  else
    match speakerMatch cs with
    | none => none
    | some (spRun, t1, t2) =>
      let speaker : String := ⟨stripChars spRun⟩
      if FALSE_POSITIVE_NAMES.contains speaker then none
      else some (speaker, mode_from_tags t1 t2)

/-- One record of the list returned by `extract_dialogue_blocks`:
`{"speaker": ..., "text": ...}` plus a `"mode"` key present only when the
mode is not `None` (modelled by the `Option`). -/
structure DialogueBlock where
  speaker : String
  mode : Option String
  text : String
deriving DecidableEq, Repr

/-- Python `"\n".join(...)`. -/
def joinNL : List String → String
  | [] => ""
  | [s] => s
  | s :: s2 :: rest => s ++ "\n" ++ joinNL (s2 :: rest)

/-- The inner `flush()` of `extract_dialogue_blocks`: emit a record when a
speaker is set and the buffer is non-empty (`if current_speaker and buf`)
and the joined, stripped text is non-empty (`if spoken`).  The speaker
set by the loop is never the empty string (its first character is an
uppercase letter), so Python's truthiness test on it coincides with the
`Option` being `some`. -/
def pyFlush (cur : Option (String × Option String)) (buf : List String) :
    List DialogueBlock :=
  match cur with
  | none => []
  | some (sp, md) =>
    if buf.isEmpty then []
    else
      let spoken := pyStrip (joinNL buf)
      if spoken.data.isEmpty then [] else [⟨sp, md, spoken⟩]

/-- The lookahead test of `extract_dialogue_blocks`:
`re.fullmatch(r"\([^)]*\)", lines[i].strip())` — the stripped line is an
opening parenthesis, then characters none of which is a closing
parenthesis, then a final closing parenthesis.  This is also the
claim's "exactly one parenthetical group with no other content". -/
def isLoneParenthetical (l : String) : Bool :=
  match stripChars l.data with
  | [] => false
  | c :: cs2 => c == '(' && cs2.dropWhile (fun x => x != ')') == [')']

/-- The `while` loop of `extract_dialogue_blocks`, as recursion over the
remaining lines.  State: the current speaker/mode (`None` when idle) and
the buffer.  Each line is first `rstrip`ped; on a header the previous
block is flushed, the new speaker/mode installed, and an immediately
following lone parenthetical line is consumed; inside a block a blank
line flushes and any other line is buffered; outside a block non-header
lines are ignored; end of input flushes. -/
def edbGo (cur : Option (String × Option String)) (buf : List String) :
    List String → List DialogueBlock
  | [] => pyFlush cur buf
  | l :: rest =>
    let line := pyRstrip l
    match looks_like_speaker_header line with
    | some hd =>
      pyFlush cur buf ++
        match rest with
        | [] => pyFlush (some hd) []
        | nxt :: rest2 =>
          if isLoneParenthetical nxt then edbGo (some hd) [] rest2
          else edbGo (some hd) [] (nxt :: rest2)
    | none =>
      match cur with
      | some _ =>
        if (stripChars line.data).isEmpty then pyFlush cur buf ++ edbGo none [] rest
        else edbGo cur (buf ++ [line]) rest
      | none => edbGo cur buf rest

/-- Function `extract_dialogue_blocks` from `pipeline.py`, over the line
sequence produced by `text.splitlines()`. -/
def extract_dialogue_blocks (lines : List String) : List DialogueBlock :=
  edbGo none [] lines

/-- The set `DEBRA_ALIASES` from `pipeline.py`. -/
def DEBRA_ALIASES : List String := ["DEBRA", "DEB", "DEBRA MORGAN"]

/-- The speaker-matching rule of `is_debra`, with the alias set and the
prefix string as explicit configuration: the speaker, uppercased and
stripped, is one of the aliases, or starts with the prefix string.
`is_debra` is this rule at the module-level constants. -/
def speakerFilterMatches (aliases : List String) (px : String)
    (speaker : String) : Bool :=
  let s := pyStrip (upperStr speaker)
  aliases.contains s || listStarts s.data px.data

/-- Function `is_debra` from `pipeline.py`:
`s = speaker.upper().strip(); s in DEBRA_ALIASES or s.startswith("DEBRA")`. -/
def is_debra (speaker : String) : Bool :=
  speakerFilterMatches DEBRA_ALIASES "DEBRA" speaker

/-- The token class of `re.findall(r"[a-z']+", text)`. -/
def isTokChar (c : Char) : Bool := ('a' ≤ c && c ≤ 'z') || c == '\''

/-- Maximal runs of token characters, with the current (reversed) run as
accumulator: `re.findall(r"[a-z']+", text)`. -/
def tokensGo (cur : List Char) : List Char → List String
  | [] => if cur.isEmpty then [] else [⟨cur.reverse⟩]
  | c :: cs =>
    if isTokChar c then tokensGo (c :: cur) cs
    else if cur.isEmpty then tokensGo [] cs
    else (⟨cur.reverse⟩ : String) :: tokensGo [] cs

/-- Python `re.findall(r"[a-z']+", text)`. -/
def findTokens (cs : List Char) : List String := tokensGo [] cs

/-- The token list `debra_stats` computes: join the block texts with
line breaks (`d.get("text", "")` always finds the key in an emitted
block), lowercase, replace the typographic quote and the backtick by an
ASCII apostrophe (the source's third `replace("Õ", "'")` runs after
lowercasing, when `Õ` can no longer occur, and is modelled by the same
dead replacement), and extract the `[a-z']+` runs. -/
def analyzedTokens (blocks : List DialogueBlock) : List String :=
  let low := (joinNL (blocks.map (fun b => b.text))).data.map lowChar
  findTokens (replChar 'Õ' '\'' (replChar '\x60' '\'' (replChar '’' '\'' low)))

/-- The helper `bucket_contains` of `debra_stats`: the tokens containing
the fragment, with their count. -/
def bucket_contains (toks : List String) (sub : String) : Nat × List String :=
  let ws := toks.filter (fun t => listHasSub t.data sub.data)
  (ws.length, ws)

/-- The helper `bucket_exact` of `debra_stats`: the tokens equal to the
word, with their count. -/
def bucket_exact (toks : List String) (w : String) : Nat × List String :=
  let ws := toks.filter (fun t => t == w)
  (ws.length, ws)

/-- The six buckets built by `debra_stats`, in source order: four substring
rules and two exact-match rules. -/
def rawBuckets (toks : List String) : List (String × Nat × List String) :=
  [("FUCK*", bucket_contains toks "fuck"),
   ("SHIT*", bucket_contains toks "shit"),
   ("BITCH*", bucket_contains toks "bitch"),
   ("DICK*", bucket_contains toks "dick"),
   ("HELL", bucket_exact toks "hell"),
   ("DAMN", bucket_exact toks "damn")]

/-- Function `debra_stats` from `pipeline.py`.  The insertion-ordered
`dict` of buckets is modelled as an association list in insertion order;
`swear_pct` (a Python float that is an exact quotient here) is modelled
as a rational.  Returns
`(total_words, swear_buckets, total_swear_words, swear_pct)`. -/
def debra_stats (blocks : List DialogueBlock) :
    Nat × List (String × Nat × List String) × Nat × ℚ :=
  let toks := analyzedTokens blocks
  let total_words := toks.length
  let swear_buckets := (rawBuckets toks).filter (fun e => 0 < e.2.1)
  let total_swear_words : Nat := (swear_buckets.map (fun e => e.2.1)).sum
  let swear_pct : ℚ :=
    if total_words = 0 then 0
    else (total_swear_words : ℚ) / (total_words : ℚ) * 100
  (total_words, swear_buckets, total_swear_words, swear_pct)

/-- The Block Segmenter state of spec section 4.3: `IDLE` or
`COLLECTING(speaker, mode, buffer)`. -/
inductive SegState where
  | idle : SegState
  | collecting (speaker : String) (mode : Option String) (buf : List String) : SegState

/-- Modelled from the spec, section 4.3 flush semantics: "if buffer is
non-empty after trimming, join buffered lines with a line-break, trim, and
emit a DialogueBlock; mode is included only when not NONE...  Flushing with
an empty buffer is a no-op."  Flushing in `IDLE` emits nothing. -/
def specFlush : SegState → List DialogueBlock
  | .idle => []
  | .collecting sp md buf =>
    let spoken := pyStrip (joinNL buf)
    if spoken.data.isEmpty then [] else [⟨sp, md, spoken⟩]

/-- Modelled from the spec, section 4.3: the segmenter state machine,
"processing lines strictly in order, one line look-ahead used only to skip
a lone parenthetical stage-direction line immediately following a header".
Lines carry no trailing whitespace per the spec's Line data model, modelled
by `pyRstrip` on each consumed line.  The single-line case unrolls the
implicit end-of-input flush. -/
def specGo : SegState → List String → List DialogueBlock
  | st, [] => specFlush st
  | st, [l] =>
    let line := pyRstrip l
    match looks_like_speaker_header line with
    | some (sp, md) => specFlush st ++ specFlush (.collecting sp md [])
    | none =>
      match st with
      | .idle => specFlush .idle
      | .collecting sp md buf =>
        if (stripChars line.data).isEmpty then
          specFlush (.collecting sp md buf) ++ specFlush .idle
        else specFlush (.collecting sp md (buf ++ [line]))
  | st, l :: nxt :: rest =>
    let line := pyRstrip l
    match looks_like_speaker_header line with
    | some (sp, md) =>
      specFlush st ++
        (if isLoneParenthetical nxt then specGo (.collecting sp md []) rest
         else specGo (.collecting sp md []) (nxt :: rest))
    | none =>
      match st with
      | .idle => specGo .idle (nxt :: rest)
      | .collecting sp md buf =>
        if (stripChars line.data).isEmpty then
          specFlush (.collecting sp md buf) ++ specGo .idle (nxt :: rest)
        else specGo (.collecting sp md (buf ++ [line])) (nxt :: rest)

/-- The spec's Block Segmenter, started in `IDLE`. -/
def segmentSpec (lines : List String) : List DialogueBlock := specGo .idle lines

/-- The loop state of `extract_dialogue_blocks` viewed as a segmenter
state: no current speaker is `IDLE` (the Python buffer is necessarily
empty then and is never observed), a current speaker with the buffer is
`COLLECTING`. -/
def toState : Option (String × Option String) → List String → SegState
  | none, _ => .idle
  | some (sp, md), buf => .collecting sp md buf

/-- Modelled from the spec, section 4.1, with the group rule amended to
what the code enforces: one parenthetical group is optional whitespace,
`(`, at least one character none of which is a CLOSING parenthesis, `)`.
Returns the rest of the input after the group. -/
def groupShape (cs : List Char) : Option (List Char) :=
  match skipSpacesL cs with
  | [] => none
  | c :: cs2 =>
    if c = '(' then
      if (cs2.takeWhile (fun x => x != ')')).isEmpty then none
      else
        match cs2.dropWhile (fun x => x != ')') with
        | [] => none
        | d :: rest => if d = ')' then some rest else none
    else none

/-- Modelled from the spec, section 4.1: after the leading token the line
is "optionally followed by one or two parenthetical groups ... followed
only by optional trailing whitespace". -/
def shapeTail (cs : List Char) : Bool :=
  spacesOnlyL cs ||
    (match groupShape cs with
     | some r1 =>
       spacesOnlyL r1 ||
         (match groupShape r1 with
          | some r2 => spacesOnlyL r2
          | none => false)
     | none => false)

/-- Modelled from the spec, section 4.1, amended: "a leading token of 2-41
characters" whose first character is an uppercase letter and whose
characters are drawn from uppercase letters, digits, apostrophe, space,
period, and hyphen. -/
def nameToken (cs : List Char) : Bool :=
  match cs with
  | c :: _ =>
    isUpperAZ c && cs.all isNameChar &&
      decide (2 ≤ cs.length) && decide (cs.length ≤ 41)
  | [] => false

/-- Modelled from the spec, section 4.1, as the amended declarative shape
of a header line: after trimming surrounding whitespace the line is
non-blank, starts with no scene/transition marker, and decomposes as a
leading name token (some length `k`) followed by a valid tail, where the
trimmed name token is not a known false positive. -/
def headerShape (line : String) : Bool :=
  let cs := stripChars line.data
  !cs.isEmpty &&
    !(NON_DIALOGUE_HEADERS.any (fun p => listStarts cs p.data)) &&
    ((List.range (cs.length + 1)).any (fun k =>
      nameToken (cs.take k) && shapeTail (cs.drop k) &&
      !(FALSE_POSITIVE_NAMES.contains ⟨stripChars (cs.take k)⟩)))

/-- One parenthetical group exactly as claim C3 words it: delimited by a
single pair of parentheses "containing no parenthesis characters". -/
def claimGroup (cs : List Char) : Option (List Char) :=
  match skipSpacesL cs with
  | [] => none
  | c :: cs2 =>
    if c = '(' then
      if (cs2.takeWhile (fun x => x != ')' && x != '(')).isEmpty then none
      else
        match cs2.dropWhile (fun x => x != ')' && x != '(') with
        | [] => none
        | d :: rest => if d = ')' then some rest else none
    else none

/-- The tail of the line shape exactly as claim C3 words it. -/
def claimTail (cs : List Char) : Bool :=
  spacesOnlyL cs ||
    (match claimGroup cs with
     | some r1 =>
       spacesOnlyL r1 ||
         (match claimGroup r1 with
          | some r2 => spacesOnlyL r2
          | none => false)
     | none => false)

/-- The leading token exactly as claim C3 words it: "2-41 characters drawn
from uppercase letters, digits, apostrophe, space, period, and hyphen"
(no constraint singling out the first character). -/
def claimNameToken (cs : List Char) : Bool :=
  cs.all isNameChar && decide (2 ≤ cs.length) && decide (cs.length ≤ 41)

/-- The header-line shape exactly as claim C3 states it: the line is
non-blank, does not start with a scene/transition prefix, is not on the
false-positive denylist after trimming, and consists of a leading token,
optionally one or two parenthetical groups free of parenthesis characters,
then only optional trailing whitespace. -/
def claimShape (line : String) : Bool :=
  let cs := line.data
  !(stripChars cs).isEmpty &&
    !(NON_DIALOGUE_HEADERS.any (fun p => listStarts cs p.data)) &&
    ((List.range (cs.length + 1)).any (fun k =>
      claimNameToken (cs.take k) && claimTail (cs.drop k) &&
      !(FALSE_POSITIVE_NAMES.contains ⟨stripChars (cs.take k)⟩)))

/-- The matching rule of each bucket of `debra_stats`, by bucket name:
substring containment for the starred buckets, exact equality for the
rest. -/
def bucketRule : String → String → Bool
  | "FUCK*" => fun t => listHasSub t.data ("fuck").data
  | "SHIT*" => fun t => listHasSub t.data ("shit").data
  | "BITCH*" => fun t => listHasSub t.data ("bitch").data
  | "DICK*" => fun t => listHasSub t.data ("dick").data
  | "HELL" => fun t => t == "hell"
  | "DAMN" => fun t => t == "damn"
  | _ => fun _ => false

/-- Modelled from the spec: the record persisted by
`insert_debra_swear_bucket`, whose definition is imported by `pipeline.py`
from the `db` module but is absent from the repository sources.  Per spec
sections 3 and 6 it is keyed by (source document id, bucket name) and
carries the bucket count and token list. -/
structure BucketRecord where
  source_file : String
  bucket : String
  count : Nat
  tokens : List String
deriving DecidableEq, Repr

/-- Modelled from the spec: two records collide when they agree on the
(source document id, bucket name) key. -/
def sameKey (a b : BucketRecord) : Bool :=
  a.source_file == b.source_file && a.bucket == b.bucket

/-- Modelled from the spec, sections 3 and 6: `insert_debra_swear_bucket`
is a last-write-wins upsert — "re-insertion for the same key overwrites
count and tokens ..., never duplicates".  The store is modelled as the
list of persisted records: an insert for a present key overwrites the
matching record, otherwise the record is appended. -/
def insert_debra_swear_bucket (store : List BucketRecord) (r : BucketRecord) :
    List BucketRecord :=
  if store.any (fun q => sameKey q r) then
    store.map (fun q => if sameKey q r then r else q)
  else store ++ [r]

example : mode_from_tags (some "V.O.") none = some "VO" := by decide

example : mode_from_tags (some "O.S.") (some "V.O.") = some "VO" := by decide

example : mode_from_tags (some "CONT’D") none = none := by decide

example : mode_from_tags none none = none := by decide

example : looks_like_speaker_header "DEXTER" = some ("DEXTER", none) := by decide

example : looks_like_speaker_header "DEBRA (V.O.)" = some ("DEBRA", some "VO") := by decide

example : looks_like_speaker_header "INT. DEXTER'S APARTMENT - NIGHT" = none := by decide

example : looks_like_speaker_header "BACK TO SCENE" = none := by decide

example : looks_like_speaker_header "Fuck, fuck, fuckity fuck." = none := by decide

example : looks_like_speaker_header "AB ((X)" = some ("AB", none) := by decide

example : looks_like_speaker_header "" = none := by decide

example : looks_like_speaker_header "DONOVAN (O.S.) (CONT'D)" = some ("DONOVAN", some "OS") := by decide

example :
    extract_dialogue_blocks ["DEXTER", "I am a very neat monster.", ""] =
      [⟨"DEXTER", none, "I am a very neat monster."⟩] := by decide

example :
    extract_dialogue_blocks ["DEBRA (V.O.)", "Fuck, fuck, fuckity fuck."] =
      [⟨"DEBRA", some "VO", "Fuck, fuck, fuckity fuck."⟩] := by decide

example :
    extract_dialogue_blocks ["DEXTER", "(softly)", "Hi", "", "DEBRA"] =
      [⟨"DEXTER", none, "Hi"⟩] := by decide

example : is_debra "DEB" = true := by decide

example : is_debra "DEBRA MORGAN" = true := by decide

example : is_debra "DEBORAH" = false := by decide

example : is_debra "debra morgan jr" = true := by decide

theorem debra_stats_pct (bs : List DialogueBlock) :
    (debra_stats bs).2.2.2 =
      if (debra_stats bs).1 = 0 then (0 : ℚ)
      else ((debra_stats bs).2.2.1 : ℚ) / ((debra_stats bs).1 : ℚ) * 100 := rfl

/-- Componentwise characterization of a concrete `debra_stats` value: the
first three components are decidable computations, and the percentage is
determined by the word and swear counts. -/
theorem debra_stats_ext (bs : List DialogueBlock) (a c : Nat)
    (l : List (String × Nat × List String)) (q : ℚ)
    (h1 : (debra_stats bs).1 = a) (h2 : (debra_stats bs).2.1 = l)
    (h3 : (debra_stats bs).2.2.1 = c)
    (hq : (if a = 0 then (0 : ℚ) else (c : ℚ) / (a : ℚ) * 100) = q) :
    debra_stats bs = (a, l, c, q) := by
  have hp : (debra_stats bs).2.2.2 = q := by
    rw [debra_stats_pct, h1, h3, hq]
  calc debra_stats bs
      = ((debra_stats bs).1, (debra_stats bs).2.1,
          (debra_stats bs).2.2.1, (debra_stats bs).2.2.2) := rfl
    _ = (a, l, c, q) := by rw [h1, h2, h3, hp]

example :
    debra_stats [⟨"DEBRA", some "VO", "Fuck, fuck, fuckity fuck."⟩] =
      (4, [("FUCK*", 4, ["fuck", "fuck", "fuckity", "fuck"])], 4, 100) :=
  debra_stats_ext _ _ _ _ _ (by decide) (by decide) (by decide) (by norm_num)

example : debra_stats [] = (0, [], 0, 0) :=
  debra_stats_ext _ _ _ _ _ (by decide) (by decide) (by decide) (by norm_num)

example :
    debra_stats [⟨"DEBRA", none, "what the hell, you dumb shithead"⟩] =
      (6, [("SHIT*", 1, ["shithead"]), ("HELL", 1, ["hell"])], 2, 100 / 3) :=
  debra_stats_ext _ _ _ _ _ (by decide) (by decide) (by decide) (by norm_num)

theorem pyFlush_eq_specFlush (cur : Option (String × Option String))
    (buf : List String) : pyFlush cur buf = specFlush (toState cur buf) := by
  cases cur with
  | none => rfl
  | some hd =>
    obtain ⟨sp, md⟩ := hd
    cases buf with
    | nil => rfl
    | cons b bs => rfl

theorem edbGo_cons (cur : Option (String × Option String)) (buf : List String)
    (l : String) (rest : List String) :
    edbGo cur buf (l :: rest) =
      (match looks_like_speaker_header (pyRstrip l) with
       | some hd =>
         pyFlush cur buf ++
           match rest with
           | [] => pyFlush (some hd) []
           | nxt :: rest2 =>
             if isLoneParenthetical nxt then edbGo (some hd) [] rest2
             else edbGo (some hd) [] (nxt :: rest2)
       | none =>
         match cur with
         | some _ =>
           if (stripChars (pyRstrip l).data).isEmpty then
             pyFlush cur buf ++ edbGo none [] rest
           else edbGo cur (buf ++ [pyRstrip l]) rest
         | none => edbGo cur buf rest) := by
  rw [edbGo.eq_def]

theorem edbGo_header_nil (cur : Option (String × Option String))
    (buf : List String) (l : String) (hd : String × Option String)
    (hh : looks_like_speaker_header (pyRstrip l) = some hd) :
    edbGo cur buf [l] = pyFlush cur buf ++ pyFlush (some hd) [] := by
  rw [edbGo_cons, hh]

theorem edbGo_header_skip (cur : Option (String × Option String))
    (buf : List String) (l nxt : String) (rest2 : List String)
    (hd : String × Option String)
    (hh : looks_like_speaker_header (pyRstrip l) = some hd)
    (hp : isLoneParenthetical nxt = true) :
    edbGo cur buf (l :: nxt :: rest2) =
      pyFlush cur buf ++ edbGo (some hd) [] rest2 := by
  rw [edbGo_cons, hh]; simp [hp]

theorem edbGo_header_noskip (cur : Option (String × Option String))
    (buf : List String) (l nxt : String) (rest2 : List String)
    (hd : String × Option String)
    (hh : looks_like_speaker_header (pyRstrip l) = some hd)
    (hp : isLoneParenthetical nxt = false) :
    edbGo cur buf (l :: nxt :: rest2) =
      pyFlush cur buf ++ edbGo (some hd) [] (nxt :: rest2) := by
  rw [edbGo_cons, hh]; simp [hp]

theorem edbGo_idle (buf : List String) (l : String) (rest : List String)
    (hh : looks_like_speaker_header (pyRstrip l) = none) :
    edbGo none buf (l :: rest) = edbGo none buf rest := by
  rw [edbGo_cons, hh]

theorem edbGo_blank (sp : String) (md : Option String) (buf : List String)
    (l : String) (rest : List String)
    (hh : looks_like_speaker_header (pyRstrip l) = none)
    (hb : (stripChars (pyRstrip l).data).isEmpty = true) :
    edbGo (some (sp, md)) buf (l :: rest) =
      pyFlush (some (sp, md)) buf ++ edbGo none [] rest := by
  rw [edbGo_cons, hh]; simp [hb]

theorem edbGo_collect (sp : String) (md : Option String) (buf : List String)
    (l : String) (rest : List String)
    (hh : looks_like_speaker_header (pyRstrip l) = none)
    (hb : (stripChars (pyRstrip l).data).isEmpty = false) :
    edbGo (some (sp, md)) buf (l :: rest) =
      edbGo (some (sp, md)) (buf ++ [pyRstrip l]) rest := by
  rw [edbGo_cons, hh]; simp [hb]

theorem specGo_single (st : SegState) (l : String) :
    specGo st [l] =
      (match looks_like_speaker_header (pyRstrip l) with
       | some (sp, md) => specFlush st ++ specFlush (.collecting sp md [])
       | none =>
         match st with
         | .idle => specFlush .idle
         | .collecting sp md buf =>
           if (stripChars (pyRstrip l).data).isEmpty then
             specFlush (.collecting sp md buf) ++ specFlush .idle
           else specFlush (.collecting sp md (buf ++ [pyRstrip l]))) := by
  rw [specGo.eq_def]

theorem specGo_cons2 (st : SegState) (l nxt : String) (rest : List String) :
    specGo st (l :: nxt :: rest) =
      (match looks_like_speaker_header (pyRstrip l) with
       | some (sp, md) =>
         specFlush st ++
           (if isLoneParenthetical nxt then specGo (.collecting sp md []) rest
            else specGo (.collecting sp md []) (nxt :: rest))
       | none =>
         match st with
         | .idle => specGo .idle (nxt :: rest)
         | .collecting sp md buf =>
           if (stripChars (pyRstrip l).data).isEmpty then
             specFlush (.collecting sp md buf) ++ specGo .idle (nxt :: rest)
           else specGo (.collecting sp md (buf ++ [pyRstrip l])) (nxt :: rest)) := by
  rw [specGo.eq_def]

theorem edbGo_eq_specGo (n : Nat) : ∀ ls : List String, ls.length ≤ n →
    ∀ cur buf, edbGo cur buf ls = specGo (toState cur buf) ls := by
  induction n with
  | zero =>
    intro ls h cur buf
    have : ls = [] := List.eq_nil_of_length_eq_zero (Nat.le_zero.mp h)
    subst this
    exact pyFlush_eq_specFlush cur buf
  | succ n ih =>
    intro ls h cur buf
    match ls with
    | [] => exact pyFlush_eq_specFlush cur buf
    | [l] =>
      cases hh : looks_like_speaker_header (pyRstrip l) with
      | some hd =>
        obtain ⟨sp, md⟩ := hd
        rw [edbGo_header_nil cur buf l (sp, md) hh, specGo_single, hh]
        rw [pyFlush_eq_specFlush cur buf, pyFlush_eq_specFlush (some (sp, md)) []]
        rfl
      | none =>
        cases cur with
        | none => rw [edbGo_idle buf l [] hh, specGo_single, hh]; rfl
        | some hd =>
          obtain ⟨sp, md⟩ := hd
          cases hb : (stripChars (pyRstrip l).data).isEmpty with
          | true =>
            rw [edbGo_blank sp md buf l [] hh hb, specGo_single, hh]
            rw [pyFlush_eq_specFlush (some (sp, md)) buf]
            simp [hb]
            rfl
          | false =>
            rw [edbGo_collect sp md buf l [] hh hb, specGo_single, hh]
            simp [hb]
            exact pyFlush_eq_specFlush (some (sp, md)) (buf ++ [pyRstrip l])
    | l :: nxt :: rest =>
      have hr : rest.length ≤ n := by simp at h; omega
      have hnr : (nxt :: rest).length ≤ n := by simp at h ⊢; omega
      cases hh : looks_like_speaker_header (pyRstrip l) with
      | some hd =>
        obtain ⟨sp, md⟩ := hd
        cases hp : isLoneParenthetical nxt with
        | true =>
          rw [edbGo_header_skip cur buf l nxt rest (sp, md) hh hp,
            specGo_cons2, hh]
          simp only [hp, if_true]
          rw [pyFlush_eq_specFlush cur buf, ih rest hr (some (sp, md)) []]
          rfl
        | false =>
          rw [edbGo_header_noskip cur buf l nxt rest (sp, md) hh hp,
            specGo_cons2, hh]
          simp only [hp, Bool.false_eq_true, if_false]
          rw [pyFlush_eq_specFlush cur buf, ih (nxt :: rest) hnr (some (sp, md)) []]
          rfl
      | none =>
        cases cur with
        | none =>
          rw [edbGo_idle buf l (nxt :: rest) hh, specGo_cons2, hh]
          exact ih (nxt :: rest) hnr none buf
        | some hd =>
          obtain ⟨sp, md⟩ := hd
          cases hb : (stripChars (pyRstrip l).data).isEmpty with
          | true =>
            rw [edbGo_blank sp md buf l (nxt :: rest) hh hb, specGo_cons2, hh]
            simp only [hb, if_true]
            rw [pyFlush_eq_specFlush (some (sp, md)) buf,
              ih (nxt :: rest) hnr none []]
            rfl
          | false =>
            rw [edbGo_collect sp md buf l (nxt :: rest) hh hb, specGo_cons2, hh]
            simp only [hb, Bool.false_eq_true, if_false]
            exact ih (nxt :: rest) hnr (some (sp, md)) (buf ++ [pyRstrip l])

example : headerShape "DEBRA (V.O.)" = true := by decide

example : headerShape "DEXTER" = true := by decide

example : headerShape "INT. DEXTER'S APARTMENT - NIGHT" = false := by decide

example : headerShape "BACK TO SCENE" = false := by decide

example : headerShape "Fuck, fuck, fuckity fuck." = false := by decide

example : headerShape "AB ((X)" = true := by decide

example : headerShape "  DONOVAN (O.S.) (CONT'D)  " = true := by decide

example : headerShape "A" = false := by decide

example : claimShape "DEBRA (V.O.)" = true := by decide

example : claimShape "AB ((X)" = false := by decide

example : (looks_like_speaker_header "AB ((X)").isSome = true := by decide

theorem nameChar_not_space {c : Char} (h : isNameChar c = true) (hc : c ≠ ' ') :
    isPySpace c = false := by
  have h1 : c ≠ '\t' := by rintro rfl; exact absurd h (by decide)
  have h2 : c ≠ '\n' := by rintro rfl; exact absurd h (by decide)
  have h3 : c ≠ '\r' := by rintro rfl; exact absurd h (by decide)
  have h4 : c ≠ '\x0b' := by rintro rfl; exact absurd h (by decide)
  have h5 : c ≠ '\x0c' := by rintro rfl; exact absurd h (by decide)
  simp [isPySpace, hc, h1, h2, h3, h4, h5]

theorem nameChar_ne_lparen {c : Char} (h : isNameChar c = true) : c ≠ '(' := by
  rintro rfl; exact absurd h (by decide)

theorem skipSpacesL_cons_space {c : Char} (hs : isPySpace c = true)
    (cs : List Char) : skipSpacesL (c :: cs) = skipSpacesL cs := by
  simp [skipSpacesL, List.dropWhile_cons, hs]

theorem skipSpacesL_cons_nonspace {c : Char} (hs : isPySpace c = false)
    (cs : List Char) : skipSpacesL (c :: cs) = c :: cs := by
  simp [skipSpacesL, List.dropWhile_cons, hs]

theorem spacesOnlyL_cons_space {c : Char} (hs : isPySpace c = true)
    (cs : List Char) : spacesOnlyL (c :: cs) = spacesOnlyL cs := by
  simp [spacesOnlyL, hs]

theorem spacesOnlyL_cons_nonspace {c : Char} (hs : isPySpace c = false)
    (cs : List Char) : spacesOnlyL (c :: cs) = false := by
  simp [spacesOnlyL, hs]

theorem grabTag_cons_space {c : Char} (hs : isPySpace c = true)
    (cs : List Char) : grabTag (c :: cs) = grabTag cs := by
  unfold grabTag; rw [skipSpacesL_cons_space hs]

theorem groupShape_cons_space {c : Char} (hs : isPySpace c = true)
    (cs : List Char) : groupShape (c :: cs) = groupShape cs := by
  unfold groupShape; rw [skipSpacesL_cons_space hs]

theorem grabTag_cons_dead {c : Char} (hs : isPySpace c = false)
    (hp : c ≠ '(') (cs : List Char) : grabTag (c :: cs) = none := by
  unfold grabTag; rw [skipSpacesL_cons_nonspace hs]; simp [hp]

theorem groupShape_cons_dead {c : Char} (hs : isPySpace c = false)
    (hp : c ≠ '(') (cs : List Char) : groupShape (c :: cs) = none := by
  unfold groupShape; rw [skipSpacesL_cons_nonspace hs]; simp [hp]

theorem shapeTail_cons_space {c : Char} (hs : isPySpace c = true)
    (cs : List Char) : shapeTail (c :: cs) = shapeTail cs := by
  unfold shapeTail
  rw [groupShape_cons_space hs, spacesOnlyL_cons_space hs]

theorem shapeTail_cons_dead {c : Char} (hs : isPySpace c = false)
    (hp : c ≠ '(') (cs : List Char) : shapeTail (c :: cs) = false := by
  unfold shapeTail
  rw [groupShape_cons_dead hs hp, spacesOnlyL_cons_nonspace hs]
  rfl

theorem tailMatch_cons_space {c : Char} (hs : isPySpace c = true)
    (cs : List Char) : tailMatch (c :: cs) = tailMatch cs := by
  unfold tailMatch
  rw [grabTag_cons_space hs, spacesOnlyL_cons_space hs]

theorem spacesOnlyL_eq_skip (cs : List Char) :
    spacesOnlyL cs = (skipSpacesL cs).isEmpty := by
  induction cs with
  | nil => rfl
  | cons c tl ih =>
    by_cases h : isPySpace c
    · rw [spacesOnlyL_cons_space h, skipSpacesL_cons_space h, ih]
    · rw [spacesOnlyL_cons_nonspace (by simpa using h),
        skipSpacesL_cons_nonspace (by simpa using h)]
      rfl

theorem spacesOnly_false_of_grabTag {cs : List Char}
    {pr : List Char × List Char} (h : grabTag cs = some pr) :
    spacesOnlyL cs = false := by
  rw [spacesOnlyL_eq_skip]
  cases hcs : skipSpacesL cs with
  | nil => unfold grabTag at h; rw [hcs] at h; exact absurd h (by simp)
  | cons c tl => rfl

theorem grabTag_groupShape (cs : List Char) :
    groupShape cs = (grabTag cs).map (fun pr => pr.2) := by
  unfold groupShape grabTag
  cases h : skipSpacesL cs with
  | nil => rfl
  | cons c cs2 =>
    by_cases hc : c = '('
    · subst hc
      by_cases he : (cs2.takeWhile (fun x => x != ')')).isEmpty
      · simp [he]
      · cases h2 : cs2.dropWhile (fun x => x != ')') with
        | nil => simp [he, h2]
        | cons d rest =>
          by_cases hd : d = ')'
          · subst hd; simp [he, h2]
          · simp [he, h2, hd]
    · simp [hc]

theorem tailMatch_isSome (cs : List Char) :
    (tailMatch cs).isSome = shapeTail cs := by
  have hg1 := grabTag_groupShape cs
  cases h1 : grabTag cs with
  | none =>
    rw [h1] at hg1
    unfold tailMatch shapeTail
    rw [h1, hg1]
    by_cases hs : spacesOnlyL cs <;> simp [hs]
  | some pr =>
    obtain ⟨t1, r1⟩ := pr
    have hsp : spacesOnlyL cs = false := spacesOnly_false_of_grabTag h1
    rw [h1] at hg1
    simp only [Option.map_some'] at hg1
    have hg2 := grabTag_groupShape r1
    unfold tailMatch shapeTail
    rw [h1, hg1, hsp]
    dsimp only
    cases h2 : grabTag r1 with
    | none =>
      have hg2e : groupShape r1 = none := by rw [hg2, h2]; rfl
      rw [hg2e]
      by_cases hs1 : spacesOnlyL r1 <;> simp [hs1]
    | some pr2 =>
      obtain ⟨t2, r2⟩ := pr2
      have hsp1 : spacesOnlyL r1 = false := spacesOnly_false_of_grabTag h2
      have hg2e : groupShape r1 = some r2 := by rw [hg2, h2]; rfl
      rw [hg2e]
      by_cases hs2 : spacesOnlyL r2 <;> simp [hs2, hsp1]

theorem shapeTail_name_append (xs ys : List Char)
    (hx : xs.all isNameChar = true) (h : shapeTail (xs ++ ys) = true) :
    xs.all (fun c => c == ' ') = true ∧ shapeTail ys = true := by
  induction xs with
  | nil => simpa using h
  | cons x tl ih =>
    rw [List.all_cons, Bool.and_eq_true] at hx
    obtain ⟨hx1, hxt⟩ := hx
    by_cases hsp : x = ' '
    · subst hsp
      rw [List.cons_append, shapeTail_cons_space (by decide)] at h
      obtain ⟨h1, h2⟩ := ih hxt h
      exact ⟨by simp [List.all_cons, h1], h2⟩
    · rw [List.cons_append,
        shapeTail_cons_dead (nameChar_not_space hx1 hsp) (nameChar_ne_lparen hx1)] at h
      exact absurd h (by simp)

theorem shapeTail_spaces_append (xs ys : List Char)
    (hx : xs.all (fun c => c == ' ') = true) :
    shapeTail (xs ++ ys) = shapeTail ys := by
  induction xs with
  | nil => rfl
  | cons x tl ih =>
    rw [List.all_cons, Bool.and_eq_true] at hx
    obtain ⟨hx1, hxt⟩ := hx
    have hx1e : x = ' ' := by simpa using hx1
    subst hx1e
    rw [List.cons_append, shapeTail_cons_space (by decide), ih hxt]

theorem rstripChars_append_spaces (xs ys : List Char)
    (hy : ys.all (fun c => c == ' ') = true) :
    rstripChars (xs ++ ys) = rstripChars xs := by
  unfold rstripChars
  rw [List.reverse_append]
  have hnil : ys.reverse.dropWhile isPySpace = [] := by
    rw [List.dropWhile_eq_nil_iff]
    intro x hx
    have hx' : x ∈ ys := List.mem_reverse.mp hx
    have := List.all_eq_true.mp hy x hx'
    have hxe : x = ' ' := by simpa using this
    subst hxe; decide
  rw [List.dropWhile_append, hnil]
  rfl

theorem stripChars_append_spaces (xs ys : List Char)
    (hy : ys.all (fun c => c == ' ') = true) :
    stripChars (xs ++ ys) = stripChars xs := by
  unfold stripChars lstripChars
  rw [List.dropWhile_append]
  by_cases he : (xs.dropWhile isPySpace).isEmpty
  · have h2 : xs.dropWhile isPySpace = [] := by
      cases hx : xs.dropWhile isPySpace with
      | nil => rfl
      | cons a b => rw [hx] at he; exact absurd he (by simp)
    have h1 : ys.dropWhile isPySpace = [] := by
      rw [List.dropWhile_eq_nil_iff]
      intro x hx
      have := List.all_eq_true.mp hy x hx
      have hxe : x = ' ' := by simpa using this
      subst hxe; decide
    simp [he, h1, h2]
  · simp only [he, if_false, Bool.false_eq_true]
    exact rstripChars_append_spaces _ ys hy

theorem le_takeWhile_of_take_all {p : Char → Bool} :
    ∀ (cs : List Char) (k : Nat), (cs.take k).all p = true → k ≤ cs.length →
      k ≤ (cs.takeWhile p).length := by
  intro cs
  induction cs with
  | nil => intro k _ h; simpa using h
  | cons c tl ih =>
    intro k hall hlen
    cases k with
    | zero => exact Nat.zero_le _
    | succ j =>
      rw [List.take_succ_cons, List.all_cons, Bool.and_eq_true] at hall
      obtain ⟨hc, htl⟩ := hall
      rw [List.takeWhile_cons, if_pos hc]
      simp only [List.length_cons]
      exact Nat.succ_le_succ (ih j htl (by simpa using hlen))

theorem take_eq_take_takeWhile {p : Char → Bool} :
    ∀ (cs : List Char) (k : Nat), k ≤ (cs.takeWhile p).length →
      cs.take k = (cs.takeWhile p).take k := by
  intro cs
  induction cs with
  | nil => intro k _; simp
  | cons c tl ih =>
    intro k hk
    cases k with
    | zero => simp
    | succ j =>
      by_cases hc : p c
      · rw [List.takeWhile_cons, if_pos hc] at hk ⊢
        rw [List.take_succ_cons, List.take_succ_cons,
          ih j (by simpa using hk)]
      · rw [List.takeWhile_cons, if_neg hc] at hk
        exact absurd hk (by simp)

theorem header_witness_analysis (cs : List Char) (k : Nat)
    (hk : k ≤ cs.length)
    (hn : nameToken (cs.take k) = true)
    (ht : shapeTail (cs.drop k) = true) :
    (∃ c tl, cs = c :: tl ∧ isUpperAZ c = true) ∧
      2 ≤ min (cs.takeWhile isNameChar).length 41 ∧
      shapeTail (cs.drop (min (cs.takeWhile isNameChar).length 41)) = true ∧
      stripChars (cs.take k) =
        stripChars (cs.take (min (cs.takeWhile isNameChar).length 41)) := by
  have hlen : (cs.take k).length = k := by
    rw [List.length_take]; exact min_eq_left hk
  cases cs with
  | nil => simp [nameToken, List.take_nil] at hn
  | cons c tl =>
    cases k with
    | zero => simp [nameToken] at hn
    | succ j =>
      rw [List.take_succ_cons] at hn
      simp only [nameToken, Bool.and_eq_true, decide_eq_true_eq] at hn
      obtain ⟨⟨⟨hu, hall⟩, h2⟩, h41⟩ := hn
      rw [List.take_succ_cons] at hlen
      have hallk : ((c :: tl).take (j + 1)).all isNameChar = true := by
        rw [List.take_succ_cons]; exact hall
      have h2k : 2 ≤ j + 1 := by rw [hlen] at h2; exact h2
      have h41k : j + 1 ≤ 41 := by rw [hlen] at h41; exact h41
      have hkL : j + 1 ≤ ((c :: tl).takeWhile isNameChar).length :=
        le_takeWhile_of_take_all (c :: tl) (j + 1) hallk hk
      have hk0 : j + 1 ≤ min ((c :: tl).takeWhile isNameChar).length 41 :=
        le_min hkL h41k
      have h2k0 : 2 ≤ min ((c :: tl).takeWhile isNameChar).length 41 :=
        le_trans h2k hk0
      have hLlen : ((c :: tl).takeWhile isNameChar).length ≤ (c :: tl).length :=
        (List.takeWhile_prefix _).length_le
      have hk0len : min ((c :: tl).takeWhile isNameChar).length 41 ≤ (c :: tl).length :=
        le_trans (min_le_left _ _) hLlen
      have htake0 : (c :: tl).take (min ((c :: tl).takeWhile isNameChar).length 41) =
          ((c :: tl).takeWhile isNameChar).take
            (min ((c :: tl).takeWhile isNameChar).length 41) :=
        take_eq_take_takeWhile _ _ (min_le_left _ _)
      have hall0 : ((c :: tl).take
          (min ((c :: tl).takeWhile isNameChar).length 41)).all isNameChar = true := by
        rw [htake0]
        refine List.all_eq_true.mpr fun x hx => ?_
        exact List.mem_takeWhile_imp (List.mem_of_mem_take hx)
      have hsegall : (((c :: tl).take
          (min ((c :: tl).takeWhile isNameChar).length 41)).drop (j + 1)).all
            isNameChar = true := by
        refine List.all_eq_true.mpr fun x hx => ?_
        exact List.all_eq_true.mp hall0 x (List.mem_of_mem_drop hx)
      have e1 : ((c :: tl).take
          (min ((c :: tl).takeWhile isNameChar).length 41)).drop (j + 1) =
          ((c :: tl).drop (j + 1)).take
            (min ((c :: tl).takeWhile isNameChar).length 41 - (j + 1)) := by
        rw [List.drop_take]
      have e2 : (((c :: tl).drop (j + 1)).drop
          (min ((c :: tl).takeWhile isNameChar).length 41 - (j + 1))) =
          (c :: tl).drop (min ((c :: tl).takeWhile isNameChar).length 41) := by
        rw [List.drop_drop]; congr 1; omega
      have hsplit : (c :: tl).drop (j + 1) =
          ((c :: tl).take
            (min ((c :: tl).takeWhile isNameChar).length 41)).drop (j + 1) ++
          (c :: tl).drop (min ((c :: tl).takeWhile isNameChar).length 41) := by
        conv_lhs => rw [← List.take_append_drop
          (min ((c :: tl).takeWhile isNameChar).length 41 - (j + 1))
          ((c :: tl).drop (j + 1))]
        rw [← e1, e2]
      rw [hsplit] at ht
      obtain ⟨hseg_sp, hst0⟩ := shapeTail_name_append _ _ hsegall ht
      have htk : ((c :: tl).take
          (min ((c :: tl).takeWhile isNameChar).length 41)).take (j + 1) =
          (c :: tl).take (j + 1) := by
        rw [List.take_take]; congr 1; exact min_eq_left hk0
      have htake_split : (c :: tl).take
          (min ((c :: tl).takeWhile isNameChar).length 41) =
          (c :: tl).take (j + 1) ++
          ((c :: tl).take
            (min ((c :: tl).takeWhile isNameChar).length 41)).drop (j + 1) := by
        conv_lhs => rw [← List.take_append_drop (j + 1)
          ((c :: tl).take (min ((c :: tl).takeWhile isNameChar).length 41))]
        rw [htk]
      have hstrip : stripChars ((c :: tl).take (j + 1)) =
          stripChars ((c :: tl).take
            (min ((c :: tl).takeWhile isNameChar).length 41)) := by
        rw [htake_split]
        exact (stripChars_append_spaces _ _ hseg_sp).symm
      exact ⟨⟨c, tl, rfl, hu⟩, h2k0, hst0, hstrip⟩

theorem header_k0_token (c : Char) (tl : List Char) (hu : isUpperAZ c = true)
    (h2 : 2 ≤ min ((c :: tl).takeWhile isNameChar).length 41) :
    min ((c :: tl).takeWhile isNameChar).length 41 ≤ (c :: tl).length ∧
      nameToken ((c :: tl).take
        (min ((c :: tl).takeWhile isNameChar).length 41)) = true := by
  have hLlen : ((c :: tl).takeWhile isNameChar).length ≤ (c :: tl).length :=
    (List.takeWhile_prefix _).length_le
  have hk0len : min ((c :: tl).takeWhile isNameChar).length 41 ≤ (c :: tl).length :=
    le_trans (min_le_left _ _) hLlen
  refine ⟨hk0len, ?_⟩
  have htake0 : (c :: tl).take (min ((c :: tl).takeWhile isNameChar).length 41) =
      ((c :: tl).takeWhile isNameChar).take
        (min ((c :: tl).takeWhile isNameChar).length 41) :=
    take_eq_take_takeWhile _ _ (min_le_left _ _)
  have hall0 : ((c :: tl).take
      (min ((c :: tl).takeWhile isNameChar).length 41)).all isNameChar = true := by
    rw [htake0]
    refine List.all_eq_true.mpr fun x hx => ?_
    exact List.mem_takeWhile_imp (List.mem_of_mem_take hx)
  have hlen0 : ((c :: tl).take
      (min ((c :: tl).takeWhile isNameChar).length 41)).length =
      min ((c :: tl).takeWhile isNameChar).length 41 := by
    rw [List.length_take]; exact min_eq_left hk0len
  obtain ⟨j, hj⟩ : ∃ j, min ((c :: tl).takeWhile isNameChar).length 41 = j + 1 :=
    ⟨min ((c :: tl).takeWhile isNameChar).length 41 - 1, by omega⟩
  rw [hj] at hall0 hlen0 ⊢
  rw [List.take_succ_cons] at hall0 hlen0 ⊢
  simp only [nameToken, Bool.and_eq_true, decide_eq_true_eq]
  refine ⟨⟨⟨hu, hall0⟩, ?_⟩, ?_⟩
  · rw [hlen0]; omega
  · rw [hlen0]; omega

theorem speakerMatch_isSome_cons (c : Char) (tl : List Char) :
    (speakerMatch (c :: tl)).isSome =
      (isUpperAZ c &&
        decide (2 ≤ min ((c :: tl).takeWhile isNameChar).length 41) &&
        shapeTail ((c :: tl).drop
          (min ((c :: tl).takeWhile isNameChar).length 41))) := by
    simp only [speakerMatch]
    by_cases hu : isUpperAZ c
    · rw [if_pos hu]
      by_cases hk : min ((c :: tl).takeWhile isNameChar).length 41 < 2
      · rw [if_pos hk]
        have : ¬ 2 ≤ min ((c :: tl).takeWhile isNameChar).length 41 := by omega
        simp [hu, this]
      · rw [if_neg hk]
        have h2 : 2 ≤ min ((c :: tl).takeWhile isNameChar).length 41 := by omega
        cases htm : tailMatch ((c :: tl).drop
            (min ((c :: tl).takeWhile isNameChar).length 41)) with
        | none =>
          have := tailMatch_isSome ((c :: tl).drop
            (min ((c :: tl).takeWhile isNameChar).length 41))
          rw [htm] at this
          simp [hu, h2, ← this]
        | some pr =>
          obtain ⟨t1, t2⟩ := pr
          have := tailMatch_isSome ((c :: tl).drop
            (min ((c :: tl).takeWhile isNameChar).length 41))
          rw [htm] at this
          simp [hu, h2, ← this]
    · rw [if_neg hu]
      simp [hu]

theorem speakerMatch_capture {cs spRun : List Char} {t1 t2 : Option String}
    (h : speakerMatch cs = some (spRun, t1, t2)) :
    spRun = cs.take (min (cs.takeWhile isNameChar).length 41) := by
  cases cs with
  | nil => exact absurd h (by simp [speakerMatch])
  | cons c tl =>
    simp only [speakerMatch] at h
    by_cases hu : isUpperAZ c
    · rw [if_pos hu] at h
      by_cases hk : min ((c :: tl).takeWhile isNameChar).length 41 < 2
      · rw [if_pos hk] at h; exact absurd h (by simp)
      · rw [if_neg hk] at h
        cases htm : tailMatch ((c :: tl).drop
            (min ((c :: tl).takeWhile isNameChar).length 41)) with
        | none => rw [htm] at h; exact absurd h (by simp)
        | some pr =>
          obtain ⟨u1, u2⟩ := pr
          rw [htm] at h
          simp only [Option.some.injEq, Prod.mk.injEq] at h
          exact h.1.symm
    · rw [if_neg hu] at h; exact absurd h (by simp)

theorem list_any_false {α : Type} {l : List α} {f : α → Bool}
    (h : ∀ x ∈ l, f x = false) : l.any f = false := by
  induction l with
  | nil => rfl
  | cons a tl ih =>
    simp only [List.any_cons, h a (by simp), Bool.false_or]
    exact ih fun x hx => h x (by simp [hx])

theorem looks_like_iff_headerShape (line : String) :
    (looks_like_speaker_header line).isSome = headerShape line := by
  unfold looks_like_speaker_header headerShape
  by_cases h0 : (stripChars line.data).isEmpty
  · simp [h0]
  · have h0e : (stripChars line.data).isEmpty = false := by simpa using h0
    by_cases h1 : NON_DIALOGUE_HEADERS.any
        (fun p => listStarts (stripChars line.data) p.data)
    · simp [h0e, h1]
    · have h1e : NON_DIALOGUE_HEADERS.any
          (fun p => listStarts (stripChars line.data) p.data) = false := by
        simpa using h1
      simp only [h0e, h1e, Bool.false_eq_true, if_false, Bool.not_false,
        Bool.true_and]
      cases hm : speakerMatch (stripChars line.data) with
      | none =>
        simp only [Option.isSome_none]
        symm
        refine list_any_false fun k hk => ?_
        rw [List.mem_range] at hk
        by_cases hn : nameToken ((stripChars line.data).take k)
        · by_cases htl : shapeTail ((stripChars line.data).drop k)
          · exfalso
            obtain ⟨⟨c, tl, hcs, hu⟩, h2k0, hst0, _⟩ :=
              header_witness_analysis _ k (by omega) hn htl
            rw [hcs] at h2k0 hst0 hm
            have hsome : (speakerMatch (c :: tl)).isSome = true := by
              rw [speakerMatch_isSome_cons]
              simp [hu, h2k0, hst0]
            rw [hm] at hsome
            exact absurd hsome (by simp)
          · have htle : shapeTail ((stripChars line.data).drop k) = false := by
              simpa using htl
            simp [htle]
        · have hne : nameToken ((stripChars line.data).take k) = false := by
            simpa using hn
          simp [hne]
      | some pr =>
        obtain ⟨spRun, t1, t2⟩ := pr
        have hcap := speakerMatch_capture hm
        cases hcs : stripChars line.data with
        | nil =>
          rw [hcs] at hm
          exact absurd hm (by simp [speakerMatch])
        | cons c tl =>
          rw [hcs] at hcap hm
          have hchar := speakerMatch_isSome_cons c tl
          rw [hm] at hchar
          simp only [Option.isSome_some] at hchar
          have hconj := hchar.symm
          rw [Bool.and_eq_true, Bool.and_eq_true, decide_eq_true_eq] at hconj
          obtain ⟨⟨hu, h2k0⟩, hst0⟩ := hconj
          by_cases hd : FALSE_POSITIVE_NAMES.contains (⟨stripChars spRun⟩ : String)
          · simp only [hd, if_true, Option.isSome_none]
            symm
            refine list_any_false fun k hk => ?_
            rw [List.mem_range] at hk
            by_cases hn : nameToken ((c :: tl).take k)
            · by_cases htl2 : shapeTail ((c :: tl).drop k)
              · obtain ⟨_, _, _, hstr⟩ :=
                  header_witness_analysis (c :: tl) k (by omega) hn htl2
                rw [← hcap] at hstr
                rw [hstr, hd, hn, htl2]
                rfl
              · have htle : shapeTail ((c :: tl).drop k) = false := by
                  simpa using htl2
                simp [htle]
            · have hne : nameToken ((c :: tl).take k) = false := by
                simpa using hn
              simp [hne]
          · have hde : FALSE_POSITIVE_NAMES.contains
                (⟨stripChars spRun⟩ : String) = false := by simpa using hd
            simp only [hde, Bool.false_eq_true, if_false, Option.isSome_some]
            symm
            rw [List.any_eq_true]
            obtain ⟨hk0len, hk0tok⟩ := header_k0_token c tl hu h2k0
            refine ⟨min ((c :: tl).takeWhile isNameChar).length 41, ?_, ?_⟩
            · rw [List.mem_range]; omega
            · rw [hcap] at hde
              rw [hk0tok, hst0, hde]
              rfl

theorem debra_stats_buckets (bs : List DialogueBlock) :
    (debra_stats bs).2.1 =
      (rawBuckets (analyzedTokens bs)).filter (fun e => 0 < e.2.1) := rfl

theorem debra_stats_total_swear (bs : List DialogueBlock) :
    (debra_stats bs).2.2.1 =
      (((debra_stats bs).2.1).map (fun e => e.2.1)).sum := rfl

theorem upsert_same_key_twice (store : List BucketRecord) (r rNew : BucketRecord)
    (hk : sameKey r rNew = true)
    (hwf : (store.filter (fun q => sameKey q rNew)).length ≤ 1) :
    (insert_debra_swear_bucket (insert_debra_swear_bucket store r) rNew).filter
      (fun q => sameKey q rNew) = [rNew] := by
  have hk' := hk
  unfold sameKey at hk'
  rw [Bool.and_eq_true, beq_iff_eq, beq_iff_eq] at hk'
  obtain ⟨hsf1, hsf2⟩ := hk'
  have hext : ∀ q, sameKey q r = sameKey q rNew := fun q => by
    unfold sameKey; rw [hsf1, hsf2]
  have hself : sameKey rNew rNew = true := by simp [sameKey]
  by_cases ha : store.any (fun q => sameKey q r) = true
  · have e1 : insert_debra_swear_bucket store r =
        store.map (fun q => if sameKey q r then r else q) := by
      unfold insert_debra_swear_bucket; rw [if_pos ha]
    have ha2 : (store.map (fun q => if sameKey q r then r else q)).any
        (fun q => sameKey q rNew) = true := by
      rw [List.any_eq_true] at ha ⊢
      obtain ⟨q, hq, hqk⟩ := ha
      refine ⟨r, List.mem_map.mpr ⟨q, hq, ?_⟩, hk⟩
      simp [hqk]
    have e2 : insert_debra_swear_bucket
        (store.map (fun q => if sameKey q r then r else q)) rNew =
        store.map (fun q => if sameKey q rNew then rNew else q) := by
      unfold insert_debra_swear_bucket
      rw [if_pos ha2, List.map_map]
      congr 1
      funext q
      simp only [Function.comp_apply]
      by_cases hq : sameKey q rNew = true
      · have hqr : sameKey q r = true := by rw [hext q]; exact hq
        simp [hqr, hk, hq]
      · have hqr : sameKey q r = false := by rw [hext q]; simpa using hq
        simp [hqr, hq]
    rw [e1, e2, List.filter_map]
    have hpf : ((fun q => sameKey q rNew) ∘
        (fun q => if sameKey q rNew then rNew else q)) =
        fun q => sameKey q rNew := by
      funext q
      by_cases hq : sameKey q rNew = true <;> simp [Function.comp, hq, hself]
    rw [hpf]
    have hpos : 0 < (store.filter (fun q => sameKey q rNew)).length := by
      rw [List.any_eq_true] at ha
      obtain ⟨q, hq, hqk⟩ := ha
      have hq2 : q ∈ store.filter (fun q => sameKey q rNew) :=
        List.mem_filter.mpr ⟨hq, by rw [← hext q]; simp [hqk]⟩
      exact List.length_pos.mpr (List.ne_nil_of_mem hq2)
    cases hfl : store.filter (fun q => sameKey q rNew) with
    | nil => rw [hfl] at hpos; simp at hpos
    | cons q0 qs =>
      rw [hfl] at hwf
      have hqs : qs = [] := by
        simp only [List.length_cons] at hwf
        exact List.eq_nil_of_length_eq_zero (by omega)
      subst hqs
      have hq0mem : q0 ∈ store.filter (fun q => sameKey q rNew) := by
        rw [hfl]; exact List.mem_cons_self _ _
      have hq0 : sameKey q0 rNew = true := by
        have := (List.mem_filter.mp hq0mem).2
        simpa using this
      simp [hq0]
  · have ha' : store.any (fun q => sameKey q r) = false := by simpa using ha
    have hallf : ∀ q ∈ store, sameKey q rNew = false := by
      intro q hq
      have hq1 : ¬ sameKey q r = true := fun hh =>
        ha (List.any_eq_true.mpr ⟨q, hq, hh⟩)
      rw [← hext q]; simpa using hq1
    have e1 : insert_debra_swear_bucket store r = store ++ [r] := by
      unfold insert_debra_swear_bucket; rw [ha']; rfl
    have ha2 : (store ++ [r]).any (fun q => sameKey q rNew) = true :=
      List.any_eq_true.mpr ⟨r, by simp, hk⟩
    have e2 : insert_debra_swear_bucket (store ++ [r]) rNew =
        (store ++ [r]).map (fun q => if sameKey q rNew then rNew else q) := by
      unfold insert_debra_swear_bucket; rw [if_pos ha2]
    rw [e1, e2, List.map_append]
    have hmap : store.map (fun q => if sameKey q rNew then rNew else q) = store := by
      calc store.map (fun q => if sameKey q rNew then rNew else q)
          = store.map id := List.map_congr_left (fun q hq => by simp [hallf q hq])
        _ = store := List.map_id store
    rw [hmap]
    have hsing : ([r] : List BucketRecord).map
        (fun q => if sameKey q rNew then rNew else q) = [rNew] := by
      simp [hk]
    rw [hsing, List.filter_append]
    have hfilnil : store.filter (fun q => sameKey q rNew) = [] :=
      List.filter_eq_nil_iff.mpr (fun q hq => by simp [hallf q hq])
    rw [hfilnil]
    simp [hself]

theorem dropWhile_idem {p : Char → Bool} (x : List Char) :
    (x.dropWhile p).dropWhile p = x.dropWhile p := by
  induction x with
  | nil => rfl
  | cons c tl ih =>
    by_cases hc : p c
    · simp [List.dropWhile_cons, hc, ih]
    · simp [List.dropWhile_cons, hc]

theorem rstripChars_idem (x : List Char) :
    rstripChars (rstripChars x) = rstripChars x := by
  unfold rstripChars
  rw [List.reverse_reverse, dropWhile_idem]

theorem rstrip_eq_nil_all (x : List Char) (h : rstripChars x = []) :
    x.all isPySpace = true := by
  unfold rstripChars at h
  have h2 : x.reverse.dropWhile isPySpace = [] := by
    have h3 := congrArg List.reverse h
    rwa [List.reverse_reverse, List.reverse_nil] at h3
  rw [List.dropWhile_eq_nil_iff] at h2
  rw [List.all_eq_true]
  intro a ha
  exact h2 a (List.mem_reverse.mpr ha)

theorem rstripChars_cons (c : Char) (tl : List Char) :
    rstripChars (c :: tl) =
      if rstripChars tl = [] then (if isPySpace c then [] else [c])
      else c :: rstripChars tl := by
  by_cases h : rstripChars tl = []
  · have h2 : tl.reverse.dropWhile isPySpace = [] := by
      unfold rstripChars at h
      exact List.reverse_eq_nil_iff.mp h
    rw [if_pos h]
    show (List.dropWhile isPySpace (c :: tl).reverse).reverse = _
    rw [List.reverse_cons, List.dropWhile_append,
      if_pos (by simp [List.isEmpty_iff, h2])]
    by_cases hc : isPySpace c
    · simp [List.dropWhile_cons, hc]
    · simp [List.dropWhile_cons, hc]
  · have h2 : ¬ tl.reverse.dropWhile isPySpace = [] := by
      intro e
      apply h
      unfold rstripChars
      rw [e, List.reverse_nil]
    rw [if_neg h]
    show (List.dropWhile isPySpace (c :: tl).reverse).reverse = _
    rw [List.reverse_cons, List.dropWhile_append,
      if_neg (by simp [List.isEmpty_iff, h2])]
    simp [List.reverse_append, rstripChars]

theorem lstrip_rstrip_comm (x : List Char) :
    lstripChars (rstripChars x) = rstripChars (lstripChars x) := by
  induction x with
  | nil => rfl
  | cons c tl ih =>
    rw [rstripChars_cons]
    by_cases hc0 : isPySpace c
    · have hcf : isPySpace c = true := hc0
      by_cases htl : rstripChars tl = []
      · rw [if_pos htl, if_pos hcf]
        have hall : tl.all isPySpace = true := rstrip_eq_nil_all tl htl
        have hls : tl.dropWhile isPySpace = [] := by
          rw [List.dropWhile_eq_nil_iff]
          intro a ha; exact List.all_eq_true.mp hall a ha
        unfold lstripChars
        simp [List.dropWhile_cons, hcf, hls]
        rfl
      · rw [if_neg htl]
        unfold lstripChars
        simp only [List.dropWhile_cons, hcf, if_true]
        exact ih
    · have hcf : isPySpace c = false := by simpa using hc0
      by_cases htl : rstripChars tl = []
      · rw [if_pos htl, if_neg hc0]
        unfold lstripChars
        simp only [List.dropWhile_cons, hcf, Bool.false_eq_true, if_false]
        rw [rstripChars_cons, if_pos htl, if_neg hc0]
      · rw [if_neg htl]
        unfold lstripChars
        simp only [List.dropWhile_cons, hcf, Bool.false_eq_true, if_false]
        rw [rstripChars_cons, if_neg htl]

theorem strip_rstrip (x : List Char) :
    stripChars (rstripChars x) = stripChars x := by
  unfold stripChars
  rw [lstrip_rstrip_comm, rstripChars_idem]

theorem no_scene_prefix_of_lparen (cs2 : List Char) :
    NON_DIALOGUE_HEADERS.any (fun p => listStarts ('(' :: cs2) p.data) = false := by
  refine list_any_false fun p hp => ?_
  have hall : NON_DIALOGUE_HEADERS.all (fun p =>
      match p.data with
      | [] => false
      | d :: _ => d != '(') = true := by decide
  have hhead := List.all_eq_true.mp hall p hp
  cases hd : p.data with
  | nil => rw [hd] at hhead; simp at hhead
  | cons d ds =>
    rw [hd] at hhead
    simp only [bne_iff_ne, ne_eq, decide_eq_true_eq] at hhead
    have hne : ('(' == d) = false :=
      beq_eq_false_iff_ne.mpr fun e => hhead e.symm
    simp [listStarts, hne]

theorem speakerMatch_lparen (cs2 : List Char) :
    speakerMatch ('(' :: cs2) = none := by
  simp only [speakerMatch]
  rw [if_neg (by decide)]

theorem lone_paren_facts (l : String) (h : isLoneParenthetical l = true) :
    looks_like_speaker_header (pyRstrip l) = none ∧
      (stripChars (pyRstrip l).data).isEmpty = false := by
  have hstrip : stripChars (pyRstrip l).data = stripChars l.data :=
    strip_rstrip l.data
  unfold isLoneParenthetical at h
  cases hd : stripChars l.data with
  | nil => rw [hd] at h; simp at h
  | cons c cs2 =>
    rw [hd] at h
    rw [Bool.and_eq_true] at h
    have hc : c = '(' := by simpa using h.1
    subst hc
    constructor
    · unfold looks_like_speaker_header
      rw [hstrip, hd]
      rw [if_neg (by simp), no_scene_prefix_of_lparen]
      rw [speakerMatch_lparen]
      rfl
    · rw [hstrip, hd]; rfl

/-- C1: for every input line sequence, `extract_dialogue_blocks` coincides
with the spec's Block Segmenter state machine `segmentSpec`: lines
accumulate into the open block, the block is flushed exactly at a blank
line, at the next header line, or at end of input, and a lone
parenthetical line immediately after a header is consumed without being
buffered and without being re-examined. -/
theorem claim_C1_segmenter_refines_spec (lines : List String) :
    extract_dialogue_blocks lines = segmentSpec lines :=
  edbGo_eq_specGo lines.length lines le_rfl none []

/-- C2: the concrete two-line input "DEBRA (V.O.)" / "Fuck, fuck, fuckity
fuck." segments into exactly one block with speaker DEBRA, mode VO and the
spoken text; the block passes the DEBRA filter; and its analysis gives
total_words 4, a single bucket FUCK* with count 4 and the four tokens in
order, and swear_pct 100. -/
theorem claim_C2_scenario_debra_vo :
    extract_dialogue_blocks ["DEBRA (V.O.)", "Fuck, fuck, fuckity fuck."] =
      [⟨"DEBRA", some "VO", "Fuck, fuck, fuckity fuck."⟩] ∧
    (extract_dialogue_blocks ["DEBRA (V.O.)", "Fuck, fuck, fuckity fuck."]).filter
        (fun b => is_debra b.speaker) =
      [⟨"DEBRA", some "VO", "Fuck, fuck, fuckity fuck."⟩] ∧
    debra_stats [⟨"DEBRA", some "VO", "Fuck, fuck, fuckity fuck."⟩] =
      (4, [("FUCK*", 4, ["fuck", "fuck", "fuckity", "fuck"])], 4, 100) :=
  ⟨by decide, by decide,
    debra_stats_ext _ _ _ _ _ (by decide) (by decide) (by decide) (by norm_num)⟩

/-- C3 counterexample: the line "AB ((X)" is classified as a header by the
code (the tag regex `[^)]+` excludes only the closing parenthesis, so the
captured group "(X" contains a parenthesis character), while the shape
stated by the claim — parenthetical groups containing no parenthesis
characters — rejects it. -/
theorem claim_C3_counterexample :
    (looks_like_speaker_header "AB ((X)").isSome = true ∧
      claimShape "AB ((X)" = false := by decide

/-- C3 (amended): the Line Classifier returns a header match exactly when
the line, after trimming surrounding whitespace, is non-blank, starts with
no scene/transition prefix, and consists of a leading token of 2-41
characters whose first character is an uppercase letter and whose
characters are drawn from uppercase letters, digits, apostrophe, space,
period and hyphen, optionally followed by one or two parenthetical groups
(each non-empty and free of CLOSING parentheses), followed only by
optional trailing whitespace, with the trimmed token not on the
false-positive denylist. -/
theorem claim_C3_classifier_shape (line : String) :
    (looks_like_speaker_header line).isSome = headerShape line :=
  looks_like_iff_headerShape line

/-- C3 witness: the amended shape theorem evaluated at the concrete header
line of scenario 2. -/
theorem claim_C3_witness :
    (looks_like_speaker_header "DEBRA (V.O.)").isSome = headerShape "DEBRA (V.O.)" :=
  claim_C3_classifier_shape "DEBRA (V.O.)"

/-- C4: for every block sequence, the returned stats contain no bucket
with count 0, `total_swear_words` is the sum of the retained bucket
counts, and `swear_pct` is 0 when `total_words` is 0 and exactly
100 * total_swear_words / total_words otherwise. -/
theorem claim_C4_stats_invariants (blocks : List DialogueBlock) :
    ((debra_stats blocks).2.1.all (fun e => e.2.1 != 0)) = true ∧
    (debra_stats blocks).2.2.1 =
      (((debra_stats blocks).2.1).map (fun e => e.2.1)).sum ∧
    (debra_stats blocks).2.2.2 =
      (if (debra_stats blocks).1 = 0 then (0 : ℚ)
       else 100 * ((debra_stats blocks).2.2.1 : ℚ) /
         ((debra_stats blocks).1 : ℚ)) := by
  refine ⟨?_, debra_stats_total_swear blocks, ?_⟩
  · rw [debra_stats_buckets, List.all_eq_true]
    intro e he
    have h2 := (List.mem_filter.mp he).2
    simp only [decide_eq_true_eq] at h2
    simp only [bne_iff_ne, ne_eq, decide_eq_true_eq]
    omega
  · rw [debra_stats_pct]
    split_ifs with h
    · rfl
    · ring

/-- C5: the Mode Resolver ignores the order of its two annotation tokens,
and whenever some kept, normalized token contains "V.O" or equals "VO" the
result is VO, regardless of the other token. -/
theorem claim_C5_mode_resolver :
    (∀ t1 t2 : Option String, mode_from_tags t1 t2 = mode_from_tags t2 t1) ∧
    (∀ t1 t2 : Option String,
      ((([t1, t2].filterMap id).filter (fun t => !t.data.isEmpty)).map
          normalize_tag).any (fun t => strHasSub t "V.O" || t == "VO") = true →
      mode_from_tags t1 t2 = some "VO") := by
  constructor
  · intro t1 t2
    cases t1 with
    | none =>
      cases t2 with
      | none => rfl
      | some b => rfl
    | some a =>
      cases t2 with
      | none => rfl
      | some b =>
        by_cases ha : a.data.isEmpty <;> by_cases hb : b.data.isEmpty <;>
          simp [mode_from_tags, ha, hb, Bool.or_comm]
  · intro t1 t2 h
    simp [mode_from_tags, h]

/-- C5 witness: a VO annotation wins over an OS annotation in either
position, via the theorem's two components at concrete tags. -/
theorem claim_C5_witness :
    mode_from_tags (some "O.S.") (some "V.O.") = some "VO" ∧
    mode_from_tags (some "V.O.") (some "O.S.") =
      mode_from_tags (some "O.S.") (some "V.O.") :=
  ⟨claim_C5_mode_resolver.2 (some "O.S.") (some "V.O.") (by decide),
    claim_C5_mode_resolver.1 (some "V.O.") (some "O.S.")⟩

/-- C6: the Speaker Filter selects a block exactly when the speaker,
uppercased and trimmed, is one of the alias strings or starts with the
prefix string; in particular "DEB" and "DEBRA MORGAN" match while
"DEBORAH" does not. -/
theorem claim_C6_speaker_filter :
    (∀ speaker : String, is_debra speaker =
      (DEBRA_ALIASES.contains (pyStrip (upperStr speaker)) ||
        listStarts (pyStrip (upperStr speaker)).data ("DEBRA" : String).data)) ∧
    is_debra "DEB" = true ∧ is_debra "DEBRA MORGAN" = true ∧
    is_debra "DEBORAH" = false :=
  ⟨fun _ => rfl, by decide, by decide, by decide⟩

/-- C7: persisting a bucket record twice for the same
(document identifier, bucket name) key leaves the store with a single
record for that key carrying the last-written count and tokens, provided
the store did not already hold duplicate records for that key (the
invariant the upsert itself maintains). -/
theorem claim_C7_upsert_overwrites (store : List BucketRecord)
    (r rNew : BucketRecord) (hk : sameKey r rNew = true)
    (hwf : (store.filter (fun q => sameKey q rNew)).length ≤ 1) :
    (insert_debra_swear_bucket (insert_debra_swear_bucket store r) rNew).filter
      (fun q => sameKey q rNew) = [rNew] :=
  upsert_same_key_twice store r rNew hk hwf

/-- C7 witness: inserting the FUCK* bucket of one document twice leaves
one record with the second count and tokens. -/
theorem claim_C7_witness :
    (insert_debra_swear_bucket (insert_debra_swear_bucket []
        ⟨"Dexter_1x01.pdf", "FUCK*", 4, ["fuck", "fuck", "fuckity", "fuck"]⟩)
        ⟨"Dexter_1x01.pdf", "FUCK*", 2, ["fuck", "fuck"]⟩).filter
      (fun q => sameKey q ⟨"Dexter_1x01.pdf", "FUCK*", 2, ["fuck", "fuck"]⟩) =
      [⟨"Dexter_1x01.pdf", "FUCK*", 2, ["fuck", "fuck"]⟩] :=
  claim_C7_upsert_overwrites [] _ _ (by decide) (by decide)

/-- C8 counterexample: with an invalid configuration (empty alias set and
empty prefix) the Speaker Filter does not fail fast: it is a total Boolean
predicate and returns a match for the speaker "DEBORAH" (the empty prefix
is a prefix of every string), so filtering returns every block rather than
signalling a configuration error. -/
theorem claim_C8_counterexample :
    speakerFilterMatches [] "" "DEBORAH" = true := by decide

/-- C8 (amended): the Speaker Filter performs no configuration validation
and has no error channel: its alias set and prefix are fixed constants,
`is_debra` is exactly the matching rule at those constants, and a filter
instantiated with an empty alias set and empty prefix matches every
speaker instead of failing fast or returning an empty result. -/
theorem claim_C8_no_failfast :
    (∀ s : String, speakerFilterMatches [] "" s = true) ∧
    (∀ s : String, is_debra s = speakerFilterMatches DEBRA_ALIASES "DEBRA" s) := by
  constructor
  · intro s
    simp [speakerFilterMatches, listStarts]
  · intro s
    rfl

/-- C9: a lone parenthetical line occurring while a block is open is NOT
skipped: it is appended (trailing-whitespace-stripped, like every buffered
line) to the block's buffer; consequently, in the concrete scenario the
emitted text contains the parenthetical line and its word is counted in
total_words (5 words including "beat"). -/
theorem claim_C9_midblock_parenthetical :
    (∀ (sp : String) (md : Option String) (buf : List String) (l : String)
        (rest : List String), isLoneParenthetical l = true →
      edbGo (some (sp, md)) buf (l :: rest) =
        edbGo (some (sp, md)) (buf ++ [pyRstrip l]) rest) ∧
    extract_dialogue_blocks ["DEBRA", "Hi there", "(beat)", "More words"] =
      [⟨"DEBRA", none, "Hi there\n(beat)\nMore words"⟩] ∧
    (debra_stats [⟨"DEBRA", none, "Hi there\n(beat)\nMore words"⟩]).1 = 5 := by
  refine ⟨?_, by decide, by decide⟩
  intro sp md buf l rest hp
  obtain ⟨hh, hb⟩ := lone_paren_facts l hp
  exact edbGo_collect sp md buf l rest hh hb

/-- C9 witness: the mid-block step at a concrete state and line. -/
theorem claim_C9_witness :
    edbGo (some ("DEBRA", none)) ["Hi"] ["(beat)", "Bye"] =
      edbGo (some ("DEBRA", none)) (["Hi"] ++ [pyRstrip "(beat)"]) ["Bye"] :=
  claim_C9_midblock_parenthetical.1 "DEBRA" none ["Hi"] "(beat)" ["Bye"]
    (by decide)

/-- C10: every bucket retained in the stats has count equal to the length
of its token list, and its token list is exactly the ordered filter of the
analyzed token sequence by that bucket's matching rule — so every listed
token matches the rule and tokens appear in original order with
duplicates. -/
theorem claim_C10_bucket_invariants (blocks : List DialogueBlock) :
    ∀ e ∈ (debra_stats blocks).2.1,
      e.2.1 = e.2.2.length ∧
      e.2.2 = (analyzedTokens blocks).filter (bucketRule e.1) := by
  intro e he
  rw [debra_stats_buckets] at he
  have hmem := (List.mem_filter.mp he).1
  simp only [rawBuckets, List.mem_cons, List.not_mem_nil, or_false] at hmem
  rcases hmem with h | h | h | h | h | h <;> subst h <;> exact ⟨rfl, rfl⟩

/-- C10 witness: the DAMN bucket of a one-word block. -/
theorem claim_C10_witness :
    (("DAMN", 1, ["damn"]) : String × Nat × List String).2.1 =
      (("DAMN", 1, ["damn"]) : String × Nat × List String).2.2.length ∧
    (("DAMN", 1, ["damn"]) : String × Nat × List String).2.2 =
      (analyzedTokens [⟨"DEBRA", none, "damn"⟩]).filter (bucketRule "DAMN") :=
  claim_C10_bucket_invariants [⟨"DEBRA", none, "damn"⟩]
    ("DAMN", 1, ["damn"]) (by decide)
